import Mathlib

/-!
Shallow embedding of the core pipeline of `local-event-search`
(normalization → deduplication → venue staleness tracking), together with
theorems settling the frozen claims about it.

Conventions used throughout:
* JavaScript machine integers and `Date.getTime()` values are modelled as
  `Int` (milliseconds since the Unix epoch) where millisecond precision
  matters, and as `Int` epoch day numbers inside the date parser, where the
  source only ever manipulates calendar days.  Each definition states which
  unit it uses.
* JavaScript strings are Lean `String`s; the regular expressions appearing
  in the source are translated into explicit scanners over `List Char`.
* `null`/`undefined` are modelled by `Option`.
-/

set_option maxRecDepth 4096

namespace LocalEventSearch

/-! ### Calendar arithmetic

The source manipulates JS `Date` values through the date-fns library.  We
model instants inside the date parser at day granularity: an `Int` counting
days since 1970-01-01 (all calendar decisions in the parser are made at day
granularity; none of the claims depends on time-of-day inside the parser).
`CDate` is a civil calendar date used where the source reads or writes the
year component (`getFullYear` / `setFullYear`). -/

structure CDate where
  year : Int
  month : Nat
  day : Nat
deriving DecidableEq, Repr

/-- Days since 1970-01-01 of a civil date (Gregorian, proleptic).
Standard civil-from-days arithmetic. -/
def daysFromCivil (c : CDate) : Int :=
  let y : Int := if c.month ≤ 2 then c.year - 1 else c.year
  let era : Int := Int.fdiv y 400
  let yoe : Int := y - era * 400
  let mp : Int := (if c.month ≤ 2 then (c.month : Int) + 9 else (c.month : Int) - 3)
  let doy : Int := (153 * mp + 2) / 5 + (c.day : Int) - 1
  let doe : Int := yoe * 365 + yoe / 4 - yoe / 100 + doy
  era * 146097 + doe - 719468

/-- Civil date of a day number (inverse of `daysFromCivil`). -/
def civilFromDays (z0 : Int) : CDate :=
  let z : Int := z0 + 719468
  let era : Int := Int.fdiv z 146097
  let doe : Nat := (z - era * 146097).toNat
  let yoe : Nat := (doe - doe / 1460 + doe / 36524 - doe / 146096) / 365
  let doy : Nat := doe - (365 * yoe + yoe / 4 - yoe / 100)
  let mp : Nat := (5 * doy + 2) / 153
  let d : Nat := doy - (153 * mp + 2) / 5 + 1
  let m : Nat := if mp < 10 then mp + 3 else mp - 9
  { year := (yoe : Int) + era * 400 + (if m ≤ 2 then 1 else 0), month := m, day := d }

/-- JS `Date.prototype.getDay` of an epoch day number (0 = Sunday);
1970-01-01 was a Thursday. -/
def weekdayOfDay (d : Int) : Nat := ((d + 4).emod 7).toNat

/-- Model of date-fns `nextDay(date, day)`: the next date strictly after
`d` whose weekday is `w`. -/
def nextDay (d : Int) (w : Nat) : Int :=
  let delta : Int := (w : Int) - (weekdayOfDay d : Int)
  if delta ≤ 0 then d + delta + 7 else d + delta

/-- Whether `y` is a Gregorian leap year. -/
def isLeapYear (y : Int) : Bool :=
  (y % 4 = 0 && y % 100 ≠ 0) || (y % 400 = 0)

/-- Number of days in a month (used by the date-fns parse model to validate
day-of-month). -/
def daysInMonth (y : Int) (m : Nat) : Nat :=
  if m = 2 then (if isLeapYear y then 29 else 28)
  else if m = 4 ∨ m = 6 ∨ m = 9 ∨ m = 11 then 30
  else 31

/-! ### Character-level helpers

These model the JS string methods and regular expressions used by the
source (`trim`, `replace(/\s+/g, ' ')`, `toLowerCase`, `includes`,
unanchored regex search). -/

/-- JS `\s` for the characters occurring in this code base. -/
def isWs (c : Char) : Bool := c = ' ' ∨ c = '\t' ∨ c = '\n' ∨ c = '\r'

def isDigitCh (c : Char) : Bool := '0' ≤ c ∧ c ≤ '9'

def isLowerAlnum (c : Char) : Bool := ('a' ≤ c ∧ c ≤ 'z') ∨ isDigitCh c

/-- ASCII lower-casing, modelling JS `toLowerCase` on the ASCII inputs the
claims exercise. -/
def lowerCh (c : Char) : Char := c.toLower

def lowerChars (s : List Char) : List Char := s.map lowerCh

/-- JS `String.prototype.trim` (drop leading/trailing whitespace). -/
def trimChars (s : List Char) : List Char :=
  ((s.dropWhile isWs).reverse.dropWhile isWs).reverse

/-- JS `replace(/\s+/g, ' ')`: collapse every whitespace run to a single
space (a whitespace character is dropped when followed by more whitespace,
and becomes the single `' '` of its run when it is the run's last
character). -/
def collapseWs : List Char → List Char
  | [] => []
  | [c] => if isWs c then [' '] else [c]
  | c1 :: c2 :: rest =>
    if isWs c1 && isWs c2 then collapseWs (c2 :: rest)
    else (if isWs c1 then ' ' else c1) :: collapseWs (c2 :: rest)

/-- Consume the literal `lit` from the front of `s` (case-sensitively). -/
def matchLit : List Char → List Char → Option (List Char)
  | [], s => some s
  | _, [] => none
  | l :: ls, c :: cs => if l = c then matchLit ls cs else none

/-- Unanchored regex search: the result of `p` at the leftmost position of
`s` where `p` matches (including the empty position at the end). -/
def firstMatchPos {α : Type} (p : List Char → Option α) : List Char → Option α
  | [] => p []
  | c :: rest =>
    match p (c :: rest) with
    | some a => some a
    | none => firstMatchPos p rest

/-- JS `String.prototype.includes` (substring test). -/
def containsSub (hay needle : List Char) : Bool :=
  (firstMatchPos (matchLit needle) hay).isSome

/-- Whether `s` contains a decimal digit. -/
def hasDigit (s : List Char) : Bool := s.any isDigitCh

/-- Whether `s` contains four consecutive decimal digits — the
`cleanedDate.match(/\d{4}/)` test deciding whether the parsed text carried
an explicit year. -/
def hasFourDigits (s : List Char) : Bool :=
  (firstMatchPos
    (fun t =>
      match t with
      | a :: b :: c :: d :: _ =>
        if isDigitCh a && isDigitCh b && isDigitCh c && isDigitCh d then some () else none
      | _ => none) s).isSome

/-! ### VenueStatusManager (`utils/venue-status-manager.ts`)

Instants in this component are `Int` milliseconds since the epoch
(`Date.getTime()`).  An event enters this component only through
`new Date(event.date)` followed by `getTime()` / comparisons, so the
component's view of an event is its parsed timestamp: `none` models an
unparseable date string (`NaN`, for which every `>=` comparison is false
and which `findLastEventDate` filters out). -/

def msPerDay : Int := 86400000

/-- The venue-status component's view of an `Event`: the timestamp of
`new Date(event.date)`, `none` when that timestamp is `NaN`. -/
structure VEvent where
  date : Option Int
deriving DecidableEq, Repr

/-- One entry of `VenueStatus.scrapeHistory`. -/
structure HistEntry where
  scrapedAt : Int
  hadFutureEvents : Bool
  futureEventCount : Nat
  totalEventCount : Nat
  lastEventDate : Option Int
deriving DecidableEq, Repr

/-- `VenueStatus` (types/venue-status.ts).  `lastScrapedAt` and
`lastEventDate` are stored as ISO strings in the source; since
`toISOString` is injective on valid dates they are modelled by their
timestamps. -/
structure VenueStatus where
  venueId : String
  venueName : String
  lastScrapedAt : Int
  lastEventDate : Option Int
  hasFutureEvents : Bool
  futureEventCount : Nat
  totalEventCount : Nat
  consecutiveScrapesWithNoFutureEvents : Nat
  scrapeHistory : List HistEntry
deriving DecidableEq, Repr

def MAX_HISTORY_ENTRIES : Nat := 10
def STALE_DAYS_THRESHOLD : Int := 90
def CONSECUTIVE_EMPTY_THRESHOLD : Nat := 3

/-- `setHours(0,0,0,0)` on the as-of instant: start of the reference day.
The source computes local midnight; the fixed timezone offset is immaterial
to every claim and is modelled as zero (UTC midnight). -/
def startOfDay (asOf : Int) : Int := asOf.fdiv msPerDay * msPerDay

/-- `filterFutureEvents` (venue-status-manager.ts lines 59–67): keep events
whose date is at or after the start of the as-of day.  A `NaN` date
(`none`) fails the `>=` comparison and is dropped. -/
def filterFutureEvents (events : List VEvent) (asOfDate : Int) : List VEvent :=
  events.filter fun event =>
    match event.date with
    | some d => startOfDay asOfDate ≤ d
    | none => false

/-- `findLastEventDate` (lines 106–121): `null` for an empty batch; else
parse all dates, drop `NaN`s, `null` if none remain, else the maximum.
(The source's separate empty-batch early return and empty-`dates` return
both yield `null` and collapse into the `[]` case here.) -/
def findLastEventDate (events : List VEvent) : Option Int :=
  match events.filterMap (·.date) with
  | [] => none
  | d :: rest => some (rest.foldl max d)

/-- `updateHistory` (lines 123–135): append, then keep the last
`MAX_HISTORY_ENTRIES` entries. -/
def updateHistory (existing : Option (List HistEntry)) (newEntry : HistEntry) :
    List HistEntry :=
  let history := (existing.getD []) ++ [newEntry]
  if MAX_HISTORY_ENTRIES < history.length then
    history.drop (history.length - MAX_HISTORY_ENTRIES)
  else history

/-- `updateVenueStatus` (lines 69–104).  `existingStatus` is the stored
status for the venue id (if any); the caller supplies `futureEvents`. -/
def updateVenueStatus (venueId venueName : String)
    (allEvents futureEvents : List VEvent) (scrapedAt : Int)
    (existingStatus : Option VenueStatus) : VenueStatus :=
  let lastEventDate := findLastEventDate allEvents
  let hasFutureEvents := decide (0 < futureEvents.length)
  let previousConsecutive :=
    (existingStatus.map (·.consecutiveScrapesWithNoFutureEvents)).getD 0
  { venueId := venueId
    venueName := venueName
    lastScrapedAt := scrapedAt
    lastEventDate := lastEventDate
    hasFutureEvents := hasFutureEvents
    futureEventCount := futureEvents.length
    totalEventCount := allEvents.length
    consecutiveScrapesWithNoFutureEvents :=
      if hasFutureEvents then 0 else previousConsecutive + 1
    scrapeHistory := updateHistory (existingStatus.map (·.scrapeHistory))
      { scrapedAt := scrapedAt
        hadFutureEvents := hasFutureEvents
        futureEventCount := futureEvents.length
        totalEventCount := allEvents.length
        lastEventDate := lastEventDate } }

/-- A venue status with the two fields the staleness classifier reads;
used to state concrete boundary instances. -/
def mkStatus (lastEventDate : Option Int) (consec : Nat) : VenueStatus :=
  { venueId := "v", venueName := "V", lastScrapedAt := 0
    lastEventDate := lastEventDate, hasFutureEvents := false
    futureEventCount := 0, totalEventCount := 0
    consecutiveScrapesWithNoFutureEvents := consec, scrapeHistory := [] }

inductive Recommendation where
  | keep
  | monitor
  | disable
deriving DecidableEq, Repr

/-- The staleness classifier's output (`StalenessReport` without the
non-normative `reason` string). -/
structure StalenessVerdict where
  isStale : Bool
  daysSinceLastEvent : Option Int
  consecutiveEmptyScrapes : Nat
  recommendation : Recommendation
deriving DecidableEq, Repr

/-- `analyzeVenueStaleness` (lines 152–197), translated statement by
statement.  `Math.floor` of the millisecond difference divided by a day is
integer floor division (`Int.fdiv`). -/
def analyzeVenueStaleness (status : VenueStatus) (asOfDate : Int) :
    StalenessVerdict :=
  let consec := status.consecutiveScrapesWithNoFutureEvents
  let base : Bool × Option Int × Recommendation :=
    match status.lastEventDate with
    | some lastEvent =>
      let daysSinceLastEvent := (asOfDate - lastEvent).fdiv msPerDay
      if STALE_DAYS_THRESHOLD < daysSinceLastEvent then
        (true, some daysSinceLastEvent, .disable)
      else (false, some daysSinceLastEvent, .keep)
    | none =>
      (true, none,
        if CONSECUTIVE_EMPTY_THRESHOLD ≤ consec then .disable else .monitor)
  let (isStale, daysSince, recommendation) := base
  let (isStale, recommendation) :=
    if CONSECUTIVE_EMPTY_THRESHOLD ≤ consec then (true, Recommendation.disable)
    else if 0 < consec ∧ recommendation ≠ .disable then (isStale, .monitor)
    else (isStale, recommendation)
  { isStale := isStale
    daysSinceLastEvent := daysSince
    consecutiveEmptyScrapes := consec
    recommendation := recommendation }

/-! ### EventDeduplicator (`src/utils/deduplicator.ts`)

`DEvent` carries exactly the event fields `deduplicate` and
`selectBestEvent` read: the fingerprint inputs (`title`, `date` as the ISO
string, venue name) and the completeness-score inputs.  Optional string
fields are `Option String`; JS truthiness (`undefined` and `""` are
falsy) is `jsTruthy`. -/

structure DEvent where
  title : String
  date : String
  venueName : String
  description : Option String
  startTime : Option String
  endTime : Option String
  url : Option String
  imageUrl : Option String
  price : Option String
  tags : List String
  confidence : ℚ
deriving DecidableEq, Repr

/-- JS truthiness of an optional string field. -/
def jsTruthy : Option String → Bool
  | none => false
  | some s => decide (s ≠ "")

/-- `normalizeString` (deduplicator.ts lines 11–17): lower-case, strip
characters outside `[a-z0-9\s]`, collapse whitespace runs, trim. -/
def normalizeString (s : String) : String :=
  ⟨trimChars (collapseWs
    (((lowerChars s.data).filter fun c => isLowerAlnum c || isWs c)))⟩

/-- `event.date.split('T')[0]`: the date part of the ISO string. -/
def datePart (date : String) : String := ⟨date.data.takeWhile (· ≠ 'T')⟩

/-- `getFingerprint` (lines 19–25). -/
def getFingerprint (e : DEvent) : String × String × String :=
  (normalizeString e.title, datePart e.date, normalizeString e.venueName)

/-- `fingerprintKey` (lines 27–29). -/
def fingerprintKey (fp : String × String × String) : String :=
  fp.1 ++ "|" ++ fp.2.1 ++ "|" ++ fp.2.2

/-- The fingerprint key of an event (the composition the loop in
`deduplicate` computes per event). -/
def fpKey (e : DEvent) : String := fingerprintKey (getFingerprint e)

/-- The completeness score computed inside `selectBestEvent`
(lines 31–44).  JS numbers are modelled as exact rationals. -/
def completenessScore (e : DEvent) : ℚ :=
  (if jsTruthy e.description then ((e.description.getD "").length : ℚ) / 100 else 0)
  + (if jsTruthy e.startTime then 1 else 0)
  + (if jsTruthy e.endTime then 1 else 0)
  + (if jsTruthy e.url then 1 else 0)
  + (if jsTruthy e.imageUrl then 1 else 0)
  + (if jsTruthy e.price then 1 / 2 else 0)
  + (if 0 < e.tags.length then 1 / 2 else 0)
  + e.confidence

/-- `selectBestEvent` (lines 31–48): score every event, sort descending
by score and return element 0.  `Array.prototype.sort` is stable, so
element 0 of the descending sort is the earliest maximum-scoring member;
the strict-improvement fold below computes exactly that element.  The
source indexes `scored[0]` and is only called on non-empty groups; the
empty case is `none`. -/
def selectBestEvent : List DEvent → Option DEvent
  | [] => none
  | e :: rest =>
    some (rest.foldl
      (fun best x =>
        if completenessScore best < completenessScore x then x else best) e)

/-- One step of the grouping loop in `deduplicate` (lines 53–61): a JS
`Map` keeps keys in insertion order; a new key is appended at the end, and
an event is pushed onto the end of its key's group. -/
def groupInsert : List (String × List DEvent) → String → DEvent →
    List (String × List DEvent)
  | [], k, e => [(k, [e])]
  | (k', g) :: rest, k, e =>
    if k' = k then (k', g ++ [e]) :: rest
    else (k', g) :: groupInsert rest k e

/-- The grouping loop of `deduplicate`. -/
def groupByKey (events : List DEvent) : List (String × List DEvent) :=
  events.foldl (fun m e => groupInsert m (fpKey e) e) []

/-- `deduplicate` (lines 50–79): group by fingerprint key in first-seen
order, then emit `selectBestEvent` of each group in that order (the
duplicate counting and logging have no effect on the result). -/
def deduplicate (events : List DEvent) : List DEvent :=
  (groupByKey events).filterMap fun g => selectBestEvent g.2

/-- Specification-side helper: the distinct fingerprint keys of `events`
in order of first occurrence. -/
def firstKeys (events : List DEvent) : List String :=
  events.foldl (fun ks e => if fpKey e ∈ ks then ks else ks ++ [fpKey e]) []

/-- Specification-side helper: the first maximum-scoring element of a
list (the spec's "maximum completeness score, ties broken by first-seen
order"). -/
def argmaxFirst : List DEvent → Option DEvent
  | [] => none
  | e :: rest =>
    match argmaxFirst rest with
    | none => some e
    | some b =>
      if completenessScore b ≤ completenessScore e then some e else some b

/-! ### DateParser (`utils/date-parser.ts`)

Instants are `Int` epoch day numbers: every calendar decision the parser
makes (template matching, year roll-over, weekday arithmetic) is taken at
day granularity, and none of the claims depends on time-of-day here.
The date-fns library calls (`parse` with the fixed format list, `parseISO`,
`nextDay`, `isValid`) are modelled by explicit scanners; the repository's
own logic (cleaning, the `/\d{4}/` year test, the roll-over, the relative
and recurrence regexes) is translated statement by statement. -/

def digitVal (c : Char) : Nat := c.toNat - 48

/-- `replace(/(\d+)(st|nd|rd|th)/gi, '$1')`: drop an ordinal suffix that
directly follows a digit. -/
def isOrdinalSuffix (a b : Char) : Bool :=
  (lowerCh a = 's' ∧ lowerCh b = 't') ∨ (lowerCh a = 'n' ∧ lowerCh b = 'd') ∨
  (lowerCh a = 'r' ∧ lowerCh b = 'd') ∨ (lowerCh a = 't' ∧ lowerCh b = 'h')

def stripOrdinals : List Char → List Char
  | [] => []
  | [c] => [c]
  | [c, a] => [c, a]
  | c :: a :: b :: rest' =>
    if isDigitCh c && isOrdinalSuffix a b then c :: stripOrdinals rest'
    else c :: stripOrdinals (a :: b :: rest')

/-- `replace(/[–—]/g, '-')`. -/
def unifyDashes (s : List Char) : List Char :=
  s.map fun c => if c = '–' ∨ c = '—' then '-' else c

/-- `cleanDateString` (date-parser.ts lines 367–373): trim, collapse
whitespace, strip ordinal suffixes, unify dash variants. -/
def cleanDateString (s : String) : String :=
  ⟨unifyDashes (stripOrdinals (collapseWs (trimChars s.data)))⟩

/-- Model of date-fns `parseISO` for the calendar-date form
`yyyy-MM-dd` (the only ISO shape relevant to the embedded pipeline);
other inputs fall through to the format cascade as in the source. -/
def tryISO (s : List Char) : Option Int :=
  match s with
  | [y1, y2, y3, y4, '-', m1, m2, '-', d1, d2] =>
    if isDigitCh y1 && isDigitCh y2 && isDigitCh y3 && isDigitCh y4 &&
        isDigitCh m1 && isDigitCh m2 && isDigitCh d1 && isDigitCh d2 then
      let y : Int := (digitVal y1 * 1000 + digitVal y2 * 100 +
        digitVal y3 * 10 + digitVal y4 : Nat)
      let m := digitVal m1 * 10 + digitVal m2
      let d := digitVal d1 * 10 + digitVal d2
      if 1 ≤ m ∧ m ≤ 12 ∧ 1 ≤ d ∧ d ≤ daysInMonth y m then
        some (daysFromCivil ⟨y, m, d⟩)
      else none
    else none
  | _ => none

def monthNamesFull : List (String × Nat) :=
  [("january", 1), ("february", 2), ("march", 3), ("april", 4), ("may", 5),
   ("june", 6), ("july", 7), ("august", 8), ("september", 9),
   ("october", 10), ("november", 11), ("december", 12)]

def monthNamesAbbr : List (String × Nat) :=
  [("jan", 1), ("feb", 2), ("mar", 3), ("apr", 4), ("may", 5), ("jun", 6),
   ("jul", 7), ("aug", 8), ("sep", 9), ("oct", 10), ("nov", 11), ("dec", 12)]

/-- `DAY_NAMES` weekday numbers for the full names, in the alternation
order of the source's regexes. -/
def dayNamesRegexOrder : List (String × Nat) :=
  [("monday", 1), ("tuesday", 2), ("wednesday", 3), ("thursday", 4),
   ("friday", 5), ("saturday", 6), ("sunday", 0)]

def dayNamesAbbr : List (String × Nat) :=
  [("mon", 1), ("tue", 2), ("wed", 3), ("thu", 4), ("fri", 5), ("sat", 6),
   ("sun", 0)]

/-- Match one of `names` as a case-insensitive prefix of `s`; on success
return the name, its value and the rest of `s`. -/
def matchNameCI (names : List (String × Nat)) (s : List Char) :
    Option (String × Nat × List Char) :=
  match names with
  | [] => none
  | (name, v) :: rest =>
    if lowerChars (s.take name.length) = name.data then
      some (name, v, s.drop name.length)
    else matchNameCI rest s

/-- Greedy one-or-two-digit numeric field (date-fns unpadded `d`/`M`/`h`
matching: up to two digits, no backtracking). -/
def takeDigits12 (s : List Char) : Option (Nat × List Char) :=
  match s with
  | [] => none
  | [a] => if isDigitCh a then some (digitVal a, []) else none
  | a :: b :: rest =>
    if isDigitCh a then
      if isDigitCh b then some (digitVal a * 10 + digitVal b, rest)
      else some (digitVal a, b :: rest)
    else none

/-- Exactly-two-digit numeric field (`dd`/`MM`/`mm`/`HH`/`hh`). -/
def takeDigitsN2 (s : List Char) : Option (Nat × List Char) :=
  match s with
  | a :: b :: rest =>
    if isDigitCh a && isDigitCh b then
      some (digitVal a * 10 + digitVal b, rest)
    else none
  | _ => none

/-- Four-digit year field (`yyyy`). -/
def takeDigitsN4 (s : List Char) : Option (Nat × List Char) :=
  match s with
  | a :: b :: c :: d :: rest =>
    if isDigitCh a && isDigitCh b && isDigitCh c && isDigitCh d then
      some (digitVal a * 1000 + digitVal b * 100 + digitVal c * 10 +
        digitVal d, rest)
    else none
  | _ => none

/-- Tokens of the `DATE_FORMATS` template strings. -/
inductive FTok where
  | monthFull
  | monthAbbr
  | dayNum
  | dayNum2
  | monthNum
  | monthNum2
  | year4
  | weekdayFull
  | weekdayAbbr
  | lit (c : Char)
deriving DecidableEq, Repr

/-- Run a template against the input: sequential, greedy, no
backtracking, the whole input must be consumed, numeric fields validated
against their calendar ranges (as date-fns `parse` + `isValid` behave).
Accumulates the year/month/day fields found; weekday names are consumed
and ignored (their cross-validation against the resulting date is not
modelled). -/
def runFormat : List FTok → List Char → Option Nat → Option Nat →
    Option Nat → Option (Option Nat × Option Nat × Option Nat)
  | [], [], oy, om, od => some (oy, om, od)
  | [], _ :: _, _, _, _ => none
  | t :: ts, s, oy, om, od =>
    match t with
    | .monthFull =>
      match matchNameCI monthNamesFull s with
      | some (_, m, rest) => runFormat ts rest oy (some m) od
      | none => none
    | .monthAbbr =>
      match matchNameCI monthNamesAbbr s with
      | some (_, m, rest) => runFormat ts rest oy (some m) od
      | none => none
    | .dayNum =>
      match takeDigits12 s with
      | some (d, rest) =>
        if 1 ≤ d ∧ d ≤ 31 then runFormat ts rest oy om (some d) else none
      | none => none
    | .dayNum2 =>
      match takeDigitsN2 s with
      | some (d, rest) =>
        if 1 ≤ d ∧ d ≤ 31 then runFormat ts rest oy om (some d) else none
      | none => none
    | .monthNum =>
      match takeDigits12 s with
      | some (m, rest) =>
        if 1 ≤ m ∧ m ≤ 12 then runFormat ts rest oy (some m) od else none
      | none => none
    | .monthNum2 =>
      match takeDigitsN2 s with
      | some (m, rest) =>
        if 1 ≤ m ∧ m ≤ 12 then runFormat ts rest oy (some m) od else none
      | none => none
    | .year4 =>
      match takeDigitsN4 s with
      | some (y, rest) => runFormat ts rest (some y) om od
      | none => none
    | .weekdayFull =>
      match matchNameCI dayNamesRegexOrder s with
      | some (_, _, rest) => runFormat ts rest oy om od
      | none => none
    | .weekdayAbbr =>
      match matchNameCI dayNamesAbbr s with
      | some (_, _, rest) => runFormat ts rest oy om od
      | none => none
    | .lit c =>
      match s with
      | x :: rest => if x = c then runFormat ts rest oy om od else none
      | [] => none

/-- The `DATE_FORMATS` list (date-parser.ts lines 210–231), in order, as
token templates. -/
def DATE_FORMATS : List (List FTok) :=
  [[.monthFull, .lit ' ', .dayNum, .lit ',', .lit ' ', .year4],
   [.monthFull, .lit ' ', .dayNum, .lit ' ', .year4],
   [.monthFull, .lit ' ', .dayNum],
   [.monthAbbr, .lit ' ', .dayNum, .lit ',', .lit ' ', .year4],
   [.monthAbbr, .lit ' ', .dayNum, .lit ' ', .year4],
   [.monthAbbr, .lit ' ', .dayNum],
   [.monthNum2, .lit '/', .dayNum2, .lit '/', .year4],
   [.monthNum, .lit '/', .dayNum, .lit '/', .year4],
   [.monthNum2, .lit '/', .dayNum2],
   [.monthNum, .lit '/', .dayNum],
   [.year4, .lit '-', .monthNum2, .lit '-', .dayNum2],
   [.weekdayFull, .lit ',', .lit ' ', .monthFull, .lit ' ', .dayNum,
     .lit ',', .lit ' ', .year4],
   [.weekdayFull, .lit ',', .lit ' ', .monthFull, .lit ' ', .dayNum],
   [.weekdayFull, .lit ' ', .monthFull, .lit ' ', .dayNum],
   [.weekdayAbbr, .lit ',', .lit ' ', .monthAbbr, .lit ' ', .dayNum],
   [.weekdayAbbr, .lit ' ', .monthAbbr, .lit ' ', .dayNum],
   [.dayNum, .lit ' ', .monthFull, .lit ' ', .year4],
   [.dayNum, .lit ' ', .monthAbbr, .lit ' ', .year4],
   [.dayNum, .lit ' ', .monthFull],
   [.dayNum, .lit ' ', .monthAbbr]]

/-- One attempt of `parse(cleanedDate, fmt, reference)` followed by
`isValid`: a template must produce month and day; a missing year is taken
from the reference date (date-fns fills unparsed larger units from the
reference); the day is validated against the month's length. -/
def tryFormat (toks : List FTok) (s : List Char) (reference : Int) :
    Option Int :=
  match runFormat toks s none none none with
  | some (oy, some m, some d) =>
    let y : Int := match oy with
      | some y => (y : Int)
      | none => (civilFromDays reference).year
    if d ≤ daysInMonth y m then some (daysFromCivil ⟨y, m, d⟩) else none
  | _ => none

/-- The format cascade: first template that parses and validates wins. -/
def tryFormats (s : List Char) (reference : Int) : Option Int :=
  (DATE_FORMATS.map fun toks => tryFormat toks s reference).foldl
    (fun acc r => acc <|> r) none

def skipWs (s : List Char) : List Char := s.dropWhile isWs

/-- `\s+`: at least one whitespace character. -/
def skipWs1 (s : List Char) : Option (List Char) :=
  match s with
  | c :: rest => if isWs c then some (rest.dropWhile isWs) else none
  | [] => none

/-- Greedy `\d+`, returning the captured digit characters. -/
def takeDigits1Plus (s : List Char) : Option (List Char × List Char) :=
  match s with
  | c :: _ =>
    if isDigitCh c then some (s.takeWhile isDigitCh, s.dropWhile isDigitCh)
    else none
  | [] => none

/-- A full weekday name at this position (regex alternation order). -/
def weekdayAt (s : List Char) : Option (String × Nat × List Char) :=
  matchNameCI dayNamesRegexOrder s

/-- `/(next|this)?\s*(monday|…|sunday)/` at one position: the optional
qualifier (with regex alternation order and fall-back to the empty
qualifier), optional whitespace, then a weekday.  Returns whether the
qualifier was `next`, and the weekday number. -/
def dayMatchAt (t : List Char) : Option (Bool × Nat) :=
  (match matchLit "next".data t with
   | some rest => (weekdayAt (skipWs rest)).map fun r => (true, r.2.1)
   | none => none) <|>
  (match matchLit "this".data t with
   | some rest => (weekdayAt (skipWs rest)).map fun r => (false, r.2.1)
   | none => none) <|>
  ((weekdayAt (skipWs t)).map fun r => (false, r.2.1))

/-- `/every\s*(monday|…|sunday)/` at one position: returns the captured
weekday name and number. -/
def everyMatchAt (t : List Char) : Option (String × Nat) :=
  match matchLit "every".data t with
  | some rest => (weekdayAt (skipWs rest)).map fun r => (r.1, r.2.1)
  | none => none

/-- `parseRelativeDate` (lines 383–412). -/
def parseRelativeDate (dateStr : String) (reference : Int) : Option Int :=
  let lower := lowerChars dateStr.data
  if lower = "today".data then some reference
  else if lower = "tomorrow".data then some (reference + 1)
  else
    match firstMatchPos dayMatchAt lower with
    | some (isNext, dayNum) =>
      some (if isNext then nextDay reference dayNum + 7
        else nextDay reference dayNum)
    | none =>
      match firstMatchPos everyMatchAt lower with
      | some (_, dayNum) => some (nextDay reference dayNum)
      | none => none

/-- `parseDate` (lines 261–298).  `reference` is the supplied reference
instant (`referenceDate || new Date()`); `now` is the wall clock the
roll-over block reads via its own `new Date()` — the source keeps the two
distinct, which is what C3 is about. -/
def parseDate (dateStr : String) (reference now : Int) : Option Int :=
  if dateStr = "" then none
  else
    let cleanedDate := cleanDateString dateStr
    match tryISO cleanedDate.data with
    | some d => some d
    | none =>
      match tryFormats cleanedDate.data reference with
      | some parsed =>
        if hasFourDigits cleanedDate.data then some parsed
        else if parsed < now then
          some (daysFromCivil
            { civilFromDays parsed with year := (civilFromDays now).year + 1 })
        else some parsed
      | none => parseRelativeDate cleanedDate reference

/-- `/(\d+)(st|nd|rd|th)\s+and\s+(\d+)(st|nd|rd|th)\s+(monday|…)/` at one
position; returns the two captured digit strings and the weekday name. -/
def ordinalMatchAt (t : List Char) : Option (List Char × List Char × String) :=
  match takeDigits1Plus t with
  | none => none
  | some (d1, r1) =>
    match r1 with
    | a :: b :: r2 =>
      if isOrdinalSuffix a b then
        match skipWs1 r2 with
        | none => none
        | some r3 =>
          match matchLit "and".data r3 with
          | none => none
          | some r4 =>
            match skipWs1 r4 with
            | none => none
            | some r5 =>
              match takeDigits1Plus r5 with
              | none => none
              | some (d2, r6) =>
                match r6 with
                | a2 :: b2 :: r7 =>
                  if isOrdinalSuffix a2 b2 then
                    match skipWs1 r7 with
                    | none => none
                    | some r8 =>
                      match weekdayAt r8 with
                      | some (name, _, _) => some (d1, d2, name)
                      | none => none
                  else none
                | _ => none
      else none
    | _ => none

/-- `detectRecurringPattern` (lines 414–433). -/
def detectRecurringPattern (dateStr : String) : Option String :=
  let lower := lowerChars dateStr.data
  let fromEvery : Option String :=
    if containsSub lower "every".data then
      match firstMatchPos everyMatchAt lower with
      | some (name, _) => some ("weekly:" ++ name)
      | none =>
        if containsSub lower "week".data then some "weekly"
        else if containsSub lower "month".data then some "monthly"
        else if containsSub lower "day".data then some "daily"
        else none
    else none
  match fromEvery with
  | some p => some p
  | none =>
    match firstMatchPos ordinalMatchAt lower with
    | some (d1, d2, name) =>
      some ("monthly:" ++ ⟨d1⟩ ++ "," ++ ⟨d2⟩ ++ ":" ++ name)
    | none => none

/-- JS `toUpperCase` on the ASCII inputs this code handles. -/
def upperChars (s : List Char) : List Char := s.map Char.toUpper

/-- `cleanTimeString` (date-parser.ts lines 375–381): trim, upper-case,
collapse whitespace, remove periods. -/
def cleanTimeString (s : String) : String :=
  ⟨(collapseWs (upperChars (trimChars s.data))).filter (· ≠ '.')⟩

/-- Tokens of the `TIME_FORMATS` template strings. -/
inductive TTok where
  | h12
  | h12p
  | h24
  | h24p
  | minute2
  | meridiem
  | lit (c : Char)
deriving DecidableEq, Repr

/-- Run a time template (sequential, greedy, full consumption, numeric
fields validated as date-fns does: `h`/`hh` in 1–12, `H`/`HH` in 0–23,
`mm` in 0–59, `a` one of AM/PM — the input is already upper-cased). -/
def runTimeFormat : List TTok → List Char → Option Nat → Option Nat →
    Option Bool → Option (Option Nat × Option Nat × Option Bool)
  | [], [], oh, om, op => some (oh, om, op)
  | [], _ :: _, _, _, _ => none
  | t :: ts, s, oh, om, op =>
    match t with
    | .h12 =>
      match takeDigits12 s with
      | some (h, rest) =>
        if 1 ≤ h ∧ h ≤ 12 then runTimeFormat ts rest (some h) om op else none
      | none => none
    | .h12p =>
      match takeDigitsN2 s with
      | some (h, rest) =>
        if 1 ≤ h ∧ h ≤ 12 then runTimeFormat ts rest (some h) om op else none
      | none => none
    | .h24 =>
      match takeDigits12 s with
      | some (h, rest) =>
        if h ≤ 23 then runTimeFormat ts rest (some h) om op else none
      | none => none
    | .h24p =>
      match takeDigitsN2 s with
      | some (h, rest) =>
        if h ≤ 23 then runTimeFormat ts rest (some h) om op else none
      | none => none
    | .minute2 =>
      match takeDigitsN2 s with
      | some (m, rest) =>
        if m ≤ 59 then runTimeFormat ts rest oh (some m) op else none
      | none => none
    | .meridiem =>
      match matchLit "AM".data s with
      | some rest => runTimeFormat ts rest oh om (some false)
      | none =>
        match matchLit "PM".data s with
        | some rest => runTimeFormat ts rest oh om (some true)
        | none => none
    | .lit c =>
      match s with
      | x :: rest => if x = c then runTimeFormat ts rest oh om op else none
      | [] => none

/-- The `TIME_FORMATS` list (lines 233–242), in order. -/
def TIME_FORMATS : List (List TTok) :=
  [[.h12, .lit ':', .minute2, .lit ' ', .meridiem],
   [.h12p, .lit ':', .minute2, .lit ' ', .meridiem],
   [.h24, .lit ':', .minute2],
   [.h24p, .lit ':', .minute2],
   [.h12, .lit ' ', .meridiem],
   [.h12, .meridiem],
   [.h12, .lit ':', .minute2, .meridiem],
   [.h12p, .lit ':', .minute2, .meridiem]]

/-- 12-hour to 24-hour conversion as `Date.prototype.getHours` reports a
parsed `h`+`a` combination (PM adds 12 unless the hour is 12; 12 AM is
0). -/
def meridiemHours (h : Nat) (isPM : Option Bool) : Nat :=
  match isPM with
  | some true => if h ≠ 12 then h + 12 else 12
  | some false => if h = 12 then 0 else h
  | none => h

/-- One attempt of `parse(cleanedTime, fmt, new Date())` followed by
`getHours`/`getMinutes` (minutes default to 0 when the template has no
minute field — the unparsed smaller units are reset). -/
def tryTimeFormat (toks : List TTok) (s : List Char) : Option (Nat × Nat) :=
  match runTimeFormat toks s none none none with
  | some (some h, om, op) => some (meridiemHours h op, om.getD 0)
  | _ => none

def tryTimeFormats (s : List Char) : Option (Nat × Nat) :=
  (TIME_FORMATS.map fun toks => tryTimeFormat toks s).foldl
    (fun acc r => acc <|> r) none

/-- The fallback regex `/(\d{1,2})(?::(\d{2}))?\s*(am|pm)?/i` at one
position: one or two digits, an optional `:mm` group, optional
whitespace, an optional meridiem.  No range validation anywhere. -/
def fallbackTimeAt (t : List Char) : Option (Nat × Nat × Option Bool) :=
  match takeDigits12 t with
  | none => none
  | some (h, r1) =>
    let (m, r2) : Nat × List Char :=
      match r1 with
      | ':' :: rest =>
        match takeDigitsN2 rest with
        | some (m, rest') => (m, rest')
        | none => (0, ':' :: rest)
      | _ => (0, r1)
    let r3 := skipWs r2
    match matchLit "AM".data r3 with
    | some _ => some (h, m, some false)
    | none =>
      match matchLit "PM".data r3 with
      | some _ => some (h, m, some true)
      | none => some (h, m, none)

/-- `parseTime` (lines 300–334): the format cascade, then the unanchored
fallback regex with the `pm`/`am` hour adjustment; `null` when the
cleaned input contains no digit at all. -/
def parseTime (timeStr : String) : Option (Nat × Nat) :=
  if timeStr = "" then none
  else
    let cleanedTime := cleanTimeString timeStr
    match tryTimeFormats cleanedTime.data with
    | some hm => some hm
    | none =>
      match firstMatchPos fallbackTimeAt cleanedTime.data with
      | some (h, m, period) =>
        let hours := match period with
          | some true => if h ≠ 12 then h + 12 else h
          | some false => if h = 12 then 0 else h
          | none => h
        some (hours, m)
      | none => none

/-! ### MD5 (model of Node `crypto.createHash('md5')`)

`generateEventId` hashes a normalized string with MD5 and keeps the first
8 hex digits.  MD5 is fully embedded below over byte lists (`Nat`s below
256), 32-bit words being `Nat`s reduced mod `2^32`. -/

def m32 (n : Nat) : Nat := n % 4294967296

/-- Rotate a 32-bit word left by `s` (0 < s < 32). -/
def rotl32 (x s : Nat) : Nat := m32 (x * 2 ^ s) + x / 2 ^ (32 - s)

/-- UTF-8 encoding of a character (Node hashes strings as UTF-8). -/
def utf8Bytes (c : Char) : List Nat :=
  let n := c.toNat
  if n < 128 then [n]
  else if n < 2048 then [192 + n / 64, 128 + n % 64]
  else if n < 65536 then [224 + n / 4096, 128 + n / 64 % 64, 128 + n % 64]
  else [240 + n / 262144, 128 + n / 4096 % 64, 128 + n / 64 % 64, 128 + n % 64]

def strBytes (s : String) : List Nat := s.data.flatMap utf8Bytes

def leBytes4 (n : Nat) : List Nat :=
  [n % 256, n / 256 % 256, n / 65536 % 256, n / 16777216 % 256]

def leBytes8 (n : Nat) : List Nat :=
  leBytes4 (n % 4294967296) ++ leBytes4 (n / 4294967296)

/-- MD5 padding: `0x80`, zeros to 56 mod 64, then the 64-bit little-endian
bit length. -/
def md5pad (msg : List Nat) : List Nat :=
  msg ++ [128] ++ List.replicate ((119 - msg.length % 64) % 64) 0 ++
    leBytes8 (8 * msg.length)

/-- Little-endian 32-bit words of a byte list (length a multiple of 4). -/
def bytesToWords : List Nat → List Nat
  | b0 :: b1 :: b2 :: b3 :: rest =>
    (b0 + 256 * b1 + 65536 * b2 + 16777216 * b3) :: bytesToWords rest
  | _ => []

/-- 16-word chunks of a word list (length a multiple of 16). -/
def md5chunks : List Nat → List (List Nat)
  | w0 :: w1 :: w2 :: w3 :: w4 :: w5 :: w6 :: w7 :: w8 :: w9 :: w10 ::
      w11 :: w12 :: w13 :: w14 :: w15 :: rest =>
    [w0, w1, w2, w3, w4, w5, w6, w7, w8, w9, w10, w11, w12, w13, w14, w15]
      :: md5chunks rest
  | _ => []

def md5K : List Nat :=
  [3614090360, 3905402710, 606105819, 3250441966, 4118548399, 1200080426,
   2821735955, 4249261313, 1770035416, 2336552879, 4294925233, 2304563134,
   1804603682, 4254626195, 2792965006, 1236535329, 4129170786, 3225465664,
   643717713, 3921069994, 3593408605, 38016083, 3634488961, 3889429448,
   568446438, 3275163606, 4107603335, 1163531501, 2850285829, 4243563512,
   1735328473, 2368359562, 4294588738, 2272392833, 1839030562, 4259657740,
   2763975236, 1272893353, 4139469664, 3200236656, 681279174, 3936430074,
   3572445317, 76029189, 3654602809, 3873151461, 530742520, 3299628645,
   4096336452, 1126891415, 2878612391, 4237533241, 1700485571, 2399980690,
   4293915773, 2240044497, 1873313359, 4264355552, 2734768916, 1309151649,
   4149444226, 3174756917, 718787259, 3951481745]

def md5S : List Nat :=
  [7, 12, 17, 22, 7, 12, 17, 22, 7, 12, 17, 22, 7, 12, 17, 22,
   5, 9, 14, 20, 5, 9, 14, 20, 5, 9, 14, 20, 5, 9, 14, 20,
   4, 11, 16, 23, 4, 11, 16, 23, 4, 11, 16, 23, 4, 11, 16, 23,
   6, 10, 15, 21, 6, 10, 15, 21, 6, 10, 15, 21, 6, 10, 15, 21]

def md5F (i b c d : Nat) : Nat :=
  if i < 16 then (b &&& c) ||| (m32 (4294967295 - b) &&& d)
  else if i < 32 then (d &&& b) ||| (m32 (4294967295 - d) &&& c)
  else if i < 48 then b ^^^ c ^^^ d
  else c ^^^ (b ||| m32 (4294967295 - d))

def md5G (i : Nat) : Nat :=
  if i < 16 then i
  else if i < 32 then (5 * i + 1) % 16
  else if i < 48 then (3 * i + 5) % 16
  else 7 * i % 16

def md5Step (M : List Nat) (st : Nat × Nat × Nat × Nat) (i : Nat) :
    Nat × Nat × Nat × Nat :=
  let (a, b, c, d) := st
  let tmp := m32 (a + md5F i b c d + md5K.getD i 0 + M.getD (md5G i) 0)
  (d, m32 (b + rotl32 tmp (md5S.getD i 0)), b, c)

def md5Block (st : Nat × Nat × Nat × Nat) (M : List Nat) :
    Nat × Nat × Nat × Nat :=
  let r := (List.range 64).foldl (md5Step M) st
  (m32 (st.1 + r.1), m32 (st.2.1 + r.2.1), m32 (st.2.2.1 + r.2.2.1),
    m32 (st.2.2.2 + r.2.2.2))

def md5digest (msg : List Nat) : List Nat :=
  let r := (md5chunks (bytesToWords (md5pad msg))).foldl md5Block
    (1732584193, 4023233417, 2562383102, 271733878)
  leBytes4 r.1 ++ leBytes4 r.2.1 ++ leBytes4 r.2.2.1 ++ leBytes4 r.2.2.2

def hexDigitCh (n : Nat) : Char :=
  if n < 10 then Char.ofNat (n + 48) else Char.ofNat (n + 87)

/-- Lower-case hex digest of a string, as `digest('hex')` returns it. -/
def md5hex (s : String) : String :=
  ⟨(md5digest (strBytes s)).flatMap fun b => [hexDigitCh (b / 16), hexDigitCh (b % 16)]⟩

/-! ### EventNormalizer (`utils/event-normalizer.ts`)

The normalizer's output `Event` keeps the resolved date as an epoch day
number (the source stores `toISOString` of the parsed `Date`;
`isoDayString` is that string at the parser's day granularity).
`scrapedAt` is the wall-clock instant of normalization. -/

inductive EventType where
  | trivia
  | music
  | food
  | wine
  | beer
  | paint
  | comedy
  | tasting
  | workshop
  | special
  | recurring
  | other
deriving DecidableEq, Repr

def eventTypeName : EventType → String
  | .trivia => "trivia"
  | .music => "music"
  | .food => "food"
  | .wine => "wine"
  | .beer => "beer"
  | .paint => "paint"
  | .comedy => "comedy"
  | .tasting => "tasting"
  | .workshop => "workshop"
  | .special => "special"
  | .recurring => "recurring"
  | .other => "other"

/-- `EVENT_TYPE_KEYWORDS` in the source's (insertion) order, the order
`Object.entries` iterates. -/
def EVENT_TYPE_KEYWORDS : List (EventType × List String) :=
  [(.trivia, ["trivia", "quiz", "game night", "pub quiz"]),
   (.music, ["music", "live band", "concert", "dj", "acoustic", "open mic",
     "karaoke", "bingo"]),
   (.food, ["food", "dinner", "brunch", "lunch", "food truck", "bbq",
     "taco", "burger"]),
   (.wine, ["wine", "vino", "sommelier", "vineyard", "wine tasting"]),
   (.beer, ["beer", "brew", "ale", "ipa", "lager", "stout", "tap takeover"]),
   (.paint, ["paint", "art", "canvas", "sip and paint", "paint & sip"]),
   (.comedy, ["comedy", "stand-up", "standup", "comedian", "improv"]),
   (.tasting, ["tasting", "flight", "sampling"]),
   (.workshop, ["workshop", "class", "learn", "education", "seminar"]),
   (.special, ["special", "holiday", "celebration", "anniversary",
     "grand opening"]),
   (.recurring, []),
   (.other, [])]

structure RawEventData where
  title : Option String
  date : Option String
  startTime : Option String
  endTime : Option String
  description : Option String
  url : Option String
  imageUrl : Option String
  price : Option String
deriving DecidableEq, Repr

/-- The venue descriptor; only `name` is consumed by the embedded
logic (the other address/contact fields are carried opaquely). -/
structure VenueInfo where
  name : String
deriving DecidableEq, Repr

structure Event where
  id : String
  title : String
  description : Option String
  date : Int
  startTime : Option String
  endTime : Option String
  venue : VenueInfo
  type : EventType
  tags : List String
  url : Option String
  imageUrl : Option String
  price : Option String
  isRecurring : Bool
  recurringPattern : Option String
  scrapedAt : Int
  source : String
  confidence : ℚ
deriving DecidableEq, Repr

/-- `title.toLowerCase().replace(/[^a-z0-9]/g, '')`. -/
def alnumLower (s : String) : String :=
  ⟨(lowerChars s.data).filter isLowerAlnum⟩

/-- `generateEventId` (event-normalizer.ts lines 33–42): `evt-` plus the
first 8 hex digits of the MD5 of
`<normalized title>-<date>-<normalized venue>`. -/
def generateEventId (title date venue : String) : String :=
  "evt-" ++ ⟨(md5hex (alnumLower title ++ "-" ++ date ++ "-" ++
    alnumLower venue)).data.take 8⟩

def includesKw (text : List Char) (kw : String) : Bool :=
  containsSub text kw.data

/-- The `${title} ${description || ''}`.toLowerCase() haystack. -/
def keywordText (title : String) (description : Option String) : List Char :=
  lowerChars (title.data ++ ' ' :: (description.getD "").data)

/-- `detectEventType` (lines 44–54): first category (in table order) with
a keyword occurring in the text, else `other`. -/
def detectEventType (title : String) (description : Option String) :
    EventType :=
  match EVENT_TYPE_KEYWORDS.find? (fun p => p.2.any (includesKw
    (keywordText title description))) with
  | some p => p.1
  | none => .other

/-- JS `Set.prototype.add` on an insertion-ordered list. -/
def addUnique (tags : List String) (t : String) : List String :=
  if t ∈ tags then tags else tags ++ [t]

/-- `/(monday|…|sunday)s?/gi`, first match, with the trailing `s`
stripped again: the bare weekday name found at the leftmost position. -/
def weekdayTagAt (t : List Char) : Option String :=
  (weekdayAt t).map (·.1)

/-- `extractTags` (lines 56–76): every category with a keyword hit (in
table order), then the first weekday name in the text. -/
def extractTags (title : String) (description : Option String) :
    List String :=
  let text := keywordText title description
  let tags := EVENT_TYPE_KEYWORDS.foldl
    (fun tags p =>
      if p.2.any (includesKw text) then addUnique tags (eventTypeName p.1)
      else tags) []
  match firstMatchPos weekdayTagAt text with
  | some day => addUnique tags day
  | none => tags

def isDashCh (c : Char) : Bool := c = '–' ∨ c = '—' ∨ c = '-'

/-- `normalizeTitle` (lines 128–134): trim, collapse whitespace, strip
one leading dash (plus following whitespace) and one trailing dash (plus
preceding whitespace). -/
def normalizeTitle (title : String) : String :=
  let l := collapseWs (trimChars title.data)
  let l := match l with
    | c :: rest => if isDashCh c then rest.dropWhile isWs else c :: rest
    | [] => []
  let l := match l.reverse with
    | c :: rest => if isDashCh c then (rest.dropWhile isWs).reverse
      else (c :: rest).reverse
    | [] => []
  ⟨l⟩

/-- `calculateConfidence` (lines 136–146). -/
def calculateConfidence (data : RawEventData) : ℚ :=
  let score : ℚ := 1 / 2
  let score := score +
    (if jsTruthy data.title ∧ 5 < (data.title.getD "").length then 1 / 10
     else 0)
  let score := score + (if jsTruthy data.date then 3 / 20 else 0)
  let score := score + (if jsTruthy data.startTime then 1 / 10 else 0)
  let score := score +
    (if jsTruthy data.description ∧ 20 < (data.description.getD "").length
     then 1 / 10 else 0)
  let score := score + (if jsTruthy data.url then 1 / 20 else 0)
  min score 1

def padDigits2 (n : Nat) : String :=
  ⟨[Char.ofNat (n / 10 % 10 + 48), Char.ofNat (n % 10 + 48)]⟩

def padDigits4 (n : Nat) : String :=
  ⟨[Char.ofNat (n / 1000 % 10 + 48), Char.ofNat (n / 100 % 10 + 48),
    Char.ofNat (n / 10 % 10 + 48), Char.ofNat (n % 10 + 48)]⟩

/-- `toISOString` of a parsed date at the parser's day granularity. -/
def isoDayString (d : Int) : String :=
  let c := civilFromDays d
  padDigits4 c.year.toNat ++ "-" ++ padDigits2 c.month ++ "-" ++
    padDigits2 c.day ++ "T00:00:00.000Z"

def trimStr (s : String) : String := ⟨trimChars s.data⟩

/-- `normalizeEvent` (lines 78–126), with `now` the wall-clock instant
(used as `parseDate`'s default reference, as the roll-over clock and as
`scrapedAt`).  The embedding is total: the `try`/`catch` around the body
has no failing path to model, and the `null` returns are the two explicit
drop branches. -/
def normalizeEvent (rawData : RawEventData) (venue : VenueInfo)
    (source : String) (now : Int) : Option Event :=
  if jsTruthy rawData.title then
    let title := rawData.title.getD ""
    let date : Option Int := match rawData.date with
      | some ds => if ds = "" then none else parseDate ds now now
      | none => none
    match date with
    | none => none
    | some d =>
      let dateStr := isoDayString d
      let recurringPattern : Option String := match rawData.date with
        | some ds => if ds = "" then none else detectRecurringPattern ds
        | none => none
      some
        { id := generateEventId title dateStr venue.name
          title := normalizeTitle title
          description := rawData.description.map trimStr
          date := d
          startTime := rawData.startTime
          endTime := rawData.endTime
          venue := venue
          type := detectEventType title rawData.description
          tags := extractTags title rawData.description
          url := rawData.url
          imageUrl := rawData.imageUrl
          price := rawData.price
          isRecurring := recurringPattern.isSome
          recurringPattern := recurringPattern
          scrapedAt := now
          source := source
          confidence := calculateConfidence rawData }
  else none

/-! ## Theorems -/

theorem foldBest_eq_argmaxFirst (rest : List DEvent) :
    ∀ e : DEvent,
      rest.foldl
        (fun best x =>
          if completenessScore best < completenessScore x then x else best) e =
      (match argmaxFirst rest with
       | none => e
       | some b =>
          if completenessScore b ≤ completenessScore e then e else b) := by
  induction rest with
  | nil => intro e; rfl
  | cons x rs ih =>
    intro e
    rw [List.foldl_cons, ih]
    rcases h : argmaxFirst rs with _ | b
    · simp only [argmaxFirst, h]
      rcases lt_or_le (completenessScore e) (completenessScore x) with hex | hex
      · rw [if_pos hex, if_neg (not_le.mpr hex)]
      · rw [if_neg (not_lt.mpr hex), if_pos hex]
    · simp only [argmaxFirst, h]
      split_ifs <;> simp only [] <;> split_ifs <;>
        first
        | rfl
        | (exfalso; linarith)

theorem selectBestEvent_eq_argmaxFirst (g : List DEvent) :
    selectBestEvent g = argmaxFirst g := by
  rcases g with _ | ⟨e, rest⟩
  · rfl
  · rw [selectBestEvent, foldBest_eq_argmaxFirst]
    rcases h : argmaxFirst rest with _ | b
    · simp [argmaxFirst, h]
    · simp only [argmaxFirst, h]
      split_ifs <;> rfl

theorem argmaxFirst_ne_none (e : DEvent) (rest : List DEvent) :
    argmaxFirst (e :: rest) ≠ none := by
  rw [argmaxFirst]
  rcases h : argmaxFirst rest with _ | b
  · simp
  · simp only []
    split_ifs <;> simp

theorem argmaxFirst_mem {g : List DEvent} :
    ∀ {b : DEvent}, argmaxFirst g = some b → b ∈ g := by
  induction g with
  | nil => intro b h; simp [argmaxFirst] at h
  | cons e rest ih =>
    intro b h
    rcases h' : argmaxFirst rest with _ | b'
    · simp only [argmaxFirst, h', Option.some.injEq] at h
      exact h ▸ List.mem_cons_self e rest
    · simp only [argmaxFirst, h'] at h
      split_ifs at h <;> simp only [Option.some.injEq] at h
      · exact h ▸ List.mem_cons_self e rest
      · exact h ▸ List.mem_cons_of_mem e (ih h')

theorem argmaxFirst_is_max {g : List DEvent} :
    ∀ {b : DEvent}, argmaxFirst g = some b →
      ∀ x ∈ g, completenessScore x ≤ completenessScore b := by
  induction g with
  | nil => intro b h; simp [argmaxFirst] at h
  | cons e rest ih =>
    intro b h x hx
    rcases h' : argmaxFirst rest with _ | b'
    · have hrest : rest = [] := by
        rcases rest with _ | ⟨y, ys⟩
        · rfl
        · exact absurd h' (argmaxFirst_ne_none y ys)
      subst hrest
      simp only [argmaxFirst, Option.some.injEq] at h
      rcases List.mem_singleton.mp hx with rfl
      exact h ▸ le_refl _
    · simp only [argmaxFirst, h'] at h
      rcases List.mem_cons.mp hx with rfl | hx
      · split_ifs at h with hbe <;> simp only [Option.some.injEq] at h <;>
          subst h
        · exact le_refl _
        · exact le_of_lt (not_le.mp hbe)
      · have hxb' := ih h' x hx
        split_ifs at h with hbe <;> simp only [Option.some.injEq] at h <;>
          subst h
        · exact le_trans hxb' hbe
        · exact hxb'

theorem groupByKey_snoc (es : List DEvent) (e : DEvent) :
    groupByKey (es ++ [e]) = groupInsert (groupByKey es) (fpKey e) e := by
  simp [groupByKey, List.foldl_append]

theorem firstKeys_snoc (es : List DEvent) (e : DEvent) :
    firstKeys (es ++ [e]) =
      if fpKey e ∈ firstKeys es then firstKeys es
      else firstKeys es ++ [fpKey e] := by
  simp [firstKeys, List.foldl_append]

theorem mem_firstKeys {es : List DEvent} {k : String} :
    k ∈ firstKeys es ↔ ∃ x ∈ es, fpKey x = k := by
  induction es using List.reverseRecOn with
  | nil => simp [firstKeys]
  | append_singleton es e ih =>
    rw [firstKeys_snoc]
    split_ifs with hmem
    · rw [ih]
      constructor
      · rintro ⟨x, hx, rfl⟩
        exact ⟨x, List.mem_append_left _ hx, rfl⟩
      · rintro ⟨x, hx, rfl⟩
        rcases List.mem_append.mp hx with hx | hx
        · exact ⟨x, hx, rfl⟩
        · rcases List.mem_singleton.mp hx with rfl
          exact ih.mp hmem
    · rw [List.mem_append, ih, List.mem_singleton]
      constructor
      · rintro (⟨x, hx, rfl⟩ | rfl)
        · exact ⟨x, List.mem_append_left _ hx, rfl⟩
        · exact ⟨e, List.mem_append_right _ (List.mem_singleton_self e), rfl⟩
      · rintro ⟨x, hx, rfl⟩
        rcases List.mem_append.mp hx with hx | hx
        · exact Or.inl ⟨x, hx, rfl⟩
        · rcases List.mem_singleton.mp hx with rfl
          exact Or.inr rfl

theorem firstKeys_nodup (es : List DEvent) : (firstKeys es).Nodup := by
  induction es using List.reverseRecOn with
  | nil => simp [firstKeys]
  | append_singleton es e ih =>
    rw [firstKeys_snoc]
    split_ifs with hmem
    · exact ih
    · simp [List.nodup_append, ih, hmem]

theorem groupInsert_map (F : String → List DEvent) (k : String) (e : DEvent) :
    ∀ ks : List String, ks.Nodup →
      groupInsert (ks.map fun k' => (k', F k')) k e =
        (if k ∈ ks then
          ks.map fun k' => (k', F k' ++ if k' = k then [e] else [])
        else (ks.map fun k' => (k', F k')) ++ [(k, [e])]) := by
  intro ks
  induction ks with
  | nil => intro _; simp [groupInsert]
  | cons k0 ks' ih =>
    intro hnd
    rcases List.nodup_cons.mp hnd with ⟨hk0, hnd'⟩
    by_cases hk : k0 = k
    · subst hk
      rw [List.map_cons, groupInsert, if_pos rfl, if_pos (List.mem_cons_self k0 ks')]
      rw [List.map_cons, if_pos rfl]
      congr 1
      apply List.map_congr_left
      intro k' hk'
      have : k' ≠ k0 := fun h => hk0 (h ▸ hk')
      rw [if_neg this, List.append_nil]
    · rw [List.map_cons, groupInsert, if_neg hk, ih hnd']
      by_cases hmem : k ∈ ks'
      · rw [if_pos hmem, if_pos (List.mem_cons_of_mem k0 hmem)]
        rw [List.map_cons, if_neg hk, List.append_nil]
      · have : k ∉ k0 :: ks' := by
          intro hc
          rcases List.mem_cons.mp hc with rfl | hc
          · exact hk rfl
          · exact hmem hc
        rw [if_neg hmem, if_neg this]
        rfl

theorem groupByKey_eq (es : List DEvent) :
    groupByKey es =
      (firstKeys es).map fun k => (k, es.filter fun e => fpKey e = k) := by
  induction es using List.reverseRecOn with
  | nil => simp [groupByKey, firstKeys]
  | append_singleton es e ih =>
    rw [groupByKey_snoc, ih, firstKeys_snoc,
      groupInsert_map _ _ _ _ (firstKeys_nodup es)]
    split_ifs with hmem
    · apply List.map_congr_left
      intro k' hk'
      rw [List.filter_append]
      congr 1
      by_cases hke : fpKey e = k'
      · rw [if_pos hke.symm]
        simp [hke]
      · rw [if_neg (fun h => hke h.symm)]
        simp [hke]
    · rw [List.map_append]
      congr 1
      · apply List.map_congr_left
        intro k' hk'
        have hke : fpKey e ≠ k' := fun h => hmem (h ▸ hk')
        rw [List.filter_append]
        simp [hke]
      · have hnone : es.filter (fun x => fpKey x = fpKey e) = [] := by
          rw [List.filter_eq_nil_iff]
          intro x hx
          simp only [decide_eq_true_eq]
          intro hc
          exact hmem (mem_firstKeys.mpr ⟨x, hx, hc⟩)
        simp [List.filter_append, hnone]

theorem filterMap_section_eq_self {α β : Type} (g : β → α) (f : α → Option β) :
    ∀ ks : List α, (∀ k ∈ ks, ∃ b, f k = some b ∧ g b = k) →
      (ks.filterMap f).map g = ks := by
  intro ks
  induction ks with
  | nil => intro _; rfl
  | cons k ks' ih =>
    intro h
    rcases h k (List.mem_cons_self k ks') with ⟨b, hfb, hgb⟩
    rw [List.filterMap_cons, hfb, List.map_cons, hgb,
      ih fun k' hk' => h k' (List.mem_cons_of_mem k hk')]

theorem deduplicate_eq_firstKeys_argmax (es : List DEvent) :
    deduplicate es =
      (firstKeys es).filterMap fun k =>
        argmaxFirst (es.filter fun e => fpKey e = k) := by
  rw [deduplicate, groupByKey_eq, List.filterMap_map]
  apply List.filterMap_congr
  intro k _
  exact selectBestEvent_eq_argmaxFirst _

theorem deduplicate_map_fpKey (es : List DEvent) :
    (deduplicate es).map fpKey = firstKeys es := by
  rw [deduplicate_eq_firstKeys_argmax]
  apply filterMap_section_eq_self
  intro k hk
  rcases mem_firstKeys.mp hk with ⟨x, hx, hkx⟩
  have hxf : x ∈ es.filter fun e => fpKey e = k := by
    rw [List.mem_filter]
    exact ⟨hx, by simp [hkx]⟩
  rcases hf : es.filter (fun e => fpKey e = k) with _ | ⟨y, ys⟩
  · rw [hf] at hxf; exact absurd hxf (List.not_mem_nil x)
  · rcases ho : argmaxFirst (y :: ys) with _ | b
    · exact absurd ho (argmaxFirst_ne_none y ys)
    · refine ⟨b, by simp only [hf, ho], ?_⟩
      have hbf : b ∈ es.filter fun e => fpKey e = k := by
        rw [hf]; exact argmaxFirst_mem ho
      have := (List.mem_filter.mp hbf).2
      simpa using this

theorem mem_deduplicate_max {es : List DEvent} {e : DEvent}
    (he : e ∈ deduplicate es) :
    e ∈ es ∧ ∀ x ∈ es, fpKey x = fpKey e →
      completenessScore x ≤ completenessScore e := by
  rw [deduplicate_eq_firstKeys_argmax] at he
  rcases List.mem_filterMap.mp he with ⟨k, hk, harg⟩
  have hef : e ∈ es.filter fun x => fpKey x = k := argmaxFirst_mem harg
  rcases List.mem_filter.mp hef with ⟨hes, hkey⟩
  have hkey' : fpKey e = k := by simpa using hkey
  refine ⟨hes, ?_⟩
  intro x hx hkx
  have hxf : x ∈ es.filter fun y => fpKey y = k := by
    rw [List.mem_filter]
    exact ⟨hx, by simp [hkx, hkey']⟩
  exact argmaxFirst_is_max harg x hxf

theorem firstKeys_of_nodup_keys :
    ∀ l : List DEvent, (l.map fpKey).Nodup → firstKeys l = l.map fpKey := by
  intro l
  induction l using List.reverseRecOn with
  | nil => intro _; rfl
  | append_singleton l e ih =>
    intro h
    rw [List.map_append] at h
    rcases List.nodup_append.mp h with ⟨h1, -, hdisj⟩
    have hke : fpKey e ∉ l.map fpKey := by
      intro hc
      exact hdisj hc (by simp)
    rw [firstKeys_snoc, ih h1, if_neg hke, List.map_append]
    rfl

theorem filter_fpKey_singleton :
    ∀ l : List DEvent, (l.map fpKey).Nodup →
      ∀ e ∈ l, (l.filter fun x => fpKey x = fpKey e) = [e] := by
  intro l
  induction l with
  | nil => intro _ e he; exact absurd he (List.not_mem_nil e)
  | cons y ys ih =>
    intro h e he
    rw [List.map_cons, List.nodup_cons] at h
    rcases h with ⟨hy, hys⟩
    rcases List.mem_cons.mp he with rfl | he'
    · rw [List.filter_cons]
      have hempty : (ys.filter fun x => fpKey x = fpKey e) = [] := by
        rw [List.filter_eq_nil_iff]
        intro x hx
        simp only [decide_eq_true_eq]
        intro hc
        exact hy (hc ▸ List.mem_map_of_mem fpKey hx)
      simp [hempty]
    · rw [List.filter_cons]
      have hne : fpKey y ≠ fpKey e := by
        intro hc
        exact hy (hc ▸ List.mem_map_of_mem fpKey he')
      simp only [hne, decide_False, if_false]
      exact ih hys e he'

theorem filterMap_id_of_some {α : Type} (f : α → Option α) :
    ∀ l : List α, (∀ a ∈ l, f a = some a) → l.filterMap f = l := by
  intro l
  induction l with
  | nil => intro _; rfl
  | cons a as ih =>
    intro h
    rw [List.filterMap_cons, h a (List.mem_cons_self a as),
      ih fun a' ha' => h a' (List.mem_cons_of_mem a ha')]

theorem deduplicate_of_nodup_keys (l : List DEvent)
    (h : (l.map fpKey).Nodup) : deduplicate l = l := by
  rw [deduplicate_eq_firstKeys_argmax, firstKeys_of_nodup_keys l h,
    List.filterMap_map]
  apply filterMap_id_of_some
  intro e he
  simp only [Function.comp]
  rw [filter_fpKey_singleton l h e he]
  rfl

theorem foldl_max_mem (d : Int) (l : List Int) :
    l.foldl max d = d ∨ l.foldl max d ∈ l := by
  induction l generalizing d with
  | nil => exact Or.inl rfl
  | cons x xs ih =>
    rcases ih (max d x) with h | h
    · rcases le_total d x with hle | hle
      · right
        rw [List.foldl_cons, h, max_eq_right hle]
        exact List.mem_cons_self x xs
      · left; rw [List.foldl_cons, h, max_eq_left hle]
    · right
      rw [List.foldl_cons]
      exact List.mem_cons_of_mem x h

theorem le_foldl_max (d : Int) (l : List Int) :
    d ≤ l.foldl max d ∧ ∀ x ∈ l, x ≤ l.foldl max d := by
  induction l generalizing d with
  | nil => exact ⟨le_refl d, by simp⟩
  | cons y ys ih =>
    rcases ih (max d y) with ⟨h1, h2⟩
    refine ⟨le_trans (le_max_left d y) h1, ?_⟩
    intro x hx
    rcases List.mem_cons.mp hx with rfl | hx
    · exact le_trans (le_max_right d x) h1
    · exact h2 x hx

/-- C1: the staleness classifier recommends `disable` iff the days since
the last event (when known) exceed 90 or the consecutive-empty-scrapes
counter is at least 3; otherwise `monitor` iff the last event date is
unknown or the counter is positive; otherwise `keep`.  In particular a
last event 91 days before the as-of instant (counter 0) gives `disable`,
one 89 days before with counter 0, 1 or 2 is never `disable`, and a
counter of exactly 3 gives `disable` regardless of the last event date. -/
theorem staleness_recommendation_characterization :
    (∀ (status : VenueStatus) (asOfDate : Int),
      ((analyzeVenueStaleness status asOfDate).recommendation =
          .disable ↔
        (∃ last, status.lastEventDate = some last ∧
          90 < (asOfDate - last).fdiv msPerDay) ∨
        3 ≤ status.consecutiveScrapesWithNoFutureEvents) ∧
      ((analyzeVenueStaleness status asOfDate).recommendation =
          .monitor ↔
        ¬(((∃ last, status.lastEventDate = some last ∧
              90 < (asOfDate - last).fdiv msPerDay) ∨
           3 ≤ status.consecutiveScrapesWithNoFutureEvents)) ∧
        (status.lastEventDate = none ∨
          0 < status.consecutiveScrapesWithNoFutureEvents)) ∧
      ((analyzeVenueStaleness status asOfDate).recommendation =
          .keep ↔
        ¬(((∃ last, status.lastEventDate = some last ∧
              90 < (asOfDate - last).fdiv msPerDay) ∨
           3 ≤ status.consecutiveScrapesWithNoFutureEvents)) ∧
        ¬(status.lastEventDate = none ∨
          0 < status.consecutiveScrapesWithNoFutureEvents))) ∧
    (∀ asOfDate : Int,
      (analyzeVenueStaleness (mkStatus (some (asOfDate - 91 * msPerDay)) 0)
        asOfDate).recommendation = .disable) ∧
    (∀ asOfDate : Int, ∀ c ∈ [0, 1, 2],
      (analyzeVenueStaleness (mkStatus (some (asOfDate - 89 * msPerDay)) c)
        asOfDate).recommendation ≠ .disable) ∧
    (∀ (asOfDate : Int) (last : Option Int),
      (analyzeVenueStaleness (mkStatus last 3) asOfDate).recommendation =
        .disable) := by
  have hchar : ∀ (status : VenueStatus) (asOfDate : Int),
      ((analyzeVenueStaleness status asOfDate).recommendation =
          .disable ↔
        (∃ last, status.lastEventDate = some last ∧
          90 < (asOfDate - last).fdiv msPerDay) ∨
        3 ≤ status.consecutiveScrapesWithNoFutureEvents) ∧
      ((analyzeVenueStaleness status asOfDate).recommendation =
          .monitor ↔
        ¬(((∃ last, status.lastEventDate = some last ∧
              90 < (asOfDate - last).fdiv msPerDay) ∨
           3 ≤ status.consecutiveScrapesWithNoFutureEvents)) ∧
        (status.lastEventDate = none ∨
          0 < status.consecutiveScrapesWithNoFutureEvents)) ∧
      ((analyzeVenueStaleness status asOfDate).recommendation =
          .keep ↔
        ¬(((∃ last, status.lastEventDate = some last ∧
              90 < (asOfDate - last).fdiv msPerDay) ∨
           3 ≤ status.consecutiveScrapesWithNoFutureEvents)) ∧
        ¬(status.lastEventDate = none ∨
          0 < status.consecutiveScrapesWithNoFutureEvents)) := by
    intro status asOfDate
    rcases hl : status.lastEventDate with _ | last <;>
      simp only [analyzeVenueStaleness, hl, STALE_DAYS_THRESHOLD,
        CONSECUTIVE_EMPTY_THRESHOLD] <;>
      split_ifs <;>
      simp_all
  refine ⟨hchar, ?_, ?_, ?_⟩
  · intro asOfDate
    rcases hchar (mkStatus (some (asOfDate - 91 * msPerDay)) 0) asOfDate
      with ⟨h1, -, -⟩
    refine h1.mpr (Or.inl ⟨asOfDate - 91 * msPerDay, rfl, ?_⟩)
    have : asOfDate - (asOfDate - 91 * msPerDay) = 91 * msPerDay := by ring
    rw [this, Int.mul_fdiv_cancel 91 (by norm_num [msPerDay])]
    norm_num
  · intro asOfDate c hc
    rcases hchar (mkStatus (some (asOfDate - 89 * msPerDay)) c) asOfDate
      with ⟨h1, -, -⟩
    intro hdis
    rcases h1.mp hdis with ⟨last, hlast, hgt⟩ | hge
    · rcases Option.some.injEq .. ▸ hlast with rfl
      have : asOfDate - (asOfDate - 89 * msPerDay) = 89 * msPerDay := by ring
      rw [this, Int.mul_fdiv_cancel 89 (by norm_num [msPerDay])] at hgt
      norm_num at hgt
    · simp only [mkStatus] at hge
      fin_cases hc <;> omega
  · intro asOfDate last
    rcases hchar (mkStatus last 3) asOfDate with ⟨h1, -, -⟩
    exact h1.mpr (Or.inr (by simp [mkStatus]))

/-- C2 counterexample: a venue whose stored status records a last event
date, updated with an empty batch, gets its `lastEventDate` set to `null`
— it is **not** left as previously recorded. -/
theorem lastEventDate_cleared_on_empty_batch :
    (updateVenueStatus "v" "V" [] [] 0
        (some (mkStatus (some 1700000000000) 0))).lastEventDate = none ∧
    (mkStatus (some 1700000000000) 0).lastEventDate = some 1700000000000 ∧
    (none : Option Int) ≠ some 1700000000000 :=
  ⟨rfl, rfl, by decide⟩

/-- C2 amended: `updateVenueStatus` always stores
`findLastEventDate allEvents` as the new `lastEventDate`, discarding any
previously recorded value: for an empty batch (or one whose dates are all
unparseable) the field becomes `null`, and for a batch with valid dates it
becomes the maximum date across all events in the batch, future or past. -/
theorem lastEventDate_is_batch_maximum :
    ∀ (venueId venueName : String) (allEvents futureEvents : List VEvent)
      (scrapedAt : Int) (existingStatus : Option VenueStatus),
      ((updateVenueStatus venueId venueName allEvents futureEvents scrapedAt
          existingStatus).lastEventDate = findLastEventDate allEvents) ∧
      (allEvents.filterMap (·.date) = [] →
        (updateVenueStatus venueId venueName allEvents futureEvents scrapedAt
          existingStatus).lastEventDate = none) ∧
      (∀ d, (updateVenueStatus venueId venueName allEvents futureEvents
          scrapedAt existingStatus).lastEventDate = some d →
        d ∈ allEvents.filterMap (·.date) ∧
        ∀ x ∈ allEvents.filterMap (·.date), x ≤ d) ∧
      (allEvents.filterMap (·.date) ≠ [] →
        ∃ d, (updateVenueStatus venueId venueName allEvents futureEvents
          scrapedAt existingStatus).lastEventDate = some d) := by
  intro venueId venueName allEvents futureEvents scrapedAt existingStatus
  refine ⟨rfl, ?_, ?_, ?_⟩
  · intro h
    simp [updateVenueStatus, findLastEventDate, h]
  · intro d hd
    simp only [updateVenueStatus] at hd
    rcases hfm : allEvents.filterMap (·.date) with _ | ⟨d0, rest⟩
    · simp [findLastEventDate, hfm] at hd
    · simp only [findLastEventDate, hfm, Option.some.injEq] at hd
      subst hd
      rcases le_foldl_max d0 rest with ⟨h1, h2⟩
      rw [hfm]
      constructor
      · rcases foldl_max_mem d0 rest with h | h
        · rw [h]; exact List.mem_cons_self d0 rest
        · exact List.mem_cons_of_mem d0 h
      · intro x hx
        rcases List.mem_cons.mp hx with rfl | hx
        · exact h1
        · exact h2 x hx
  · intro h
    rcases hfm : allEvents.filterMap (·.date) with _ | ⟨d0, rest⟩
    · exact absurd hfm h
    · exact ⟨rest.foldl max d0, by simp [updateVenueStatus, findLastEventDate, hfm]⟩

/-- C2 amended, witness: updating with a two-event batch dated 5 and 3
stores the maximum, 5, which is a member of and dominates the batch. -/
theorem lastEventDate_is_batch_maximum_witness :
    ((5 : Int) ∈ ([⟨some 5⟩, ⟨some 3⟩] : List VEvent).filterMap (·.date) ∧
      ∀ x ∈ ([⟨some 5⟩, ⟨some 3⟩] : List VEvent).filterMap (·.date), x ≤ 5) :=
  (lastEventDate_is_batch_maximum "v" "V" [⟨some 5⟩, ⟨some 3⟩] [] 0
    none).2.2.1 5 (by decide)

/-- C8: on every scrape update where the future-events batch is the one
computed by `filterFutureEvents` (as at every call site), the
consecutive-no-future-events counter becomes 0 exactly when the batch
contains an event dated at or after the start of the reference day, and
otherwise becomes the previous value plus 1, the previous value being 0
when the venue had no stored status (first scrape). -/
theorem consecutive_counter_update :
    ∀ (venueId venueName : String) (allEvents : List VEvent)
      (asOfDate scrapedAt : Int) (existingStatus : Option VenueStatus),
      ((updateVenueStatus venueId venueName allEvents
          (filterFutureEvents allEvents asOfDate) scrapedAt
          existingStatus).consecutiveScrapesWithNoFutureEvents =
        if ∃ e ∈ allEvents, ∃ d, e.date = some d ∧ startOfDay asOfDate ≤ d
        then 0
        else (existingStatus.map
            (·.consecutiveScrapesWithNoFutureEvents)).getD 0 + 1) ∧
      ((existingStatus.map (·.consecutiveScrapesWithNoFutureEvents)).getD 0 =
        match existingStatus with
        | none => 0
        | some st => st.consecutiveScrapesWithNoFutureEvents) := by
  intro venueId venueName allEvents asOfDate scrapedAt existingStatus
  constructor
  · have hiff : (0 < (filterFutureEvents allEvents asOfDate).length) ↔
        ∃ e ∈ allEvents, ∃ d, e.date = some d ∧ startOfDay asOfDate ≤ d := by
      rw [List.length_pos_iff_exists_mem]
      constructor
      · rintro ⟨e, he⟩
        rw [filterFutureEvents, List.mem_filter] at he
        rcases he with ⟨hmem, hp⟩
        rcases hd : e.date with _ | d
        · rw [hd] at hp; simp at hp
        · rw [hd] at hp
          exact ⟨e, hmem, d, hd, by simpa using hp⟩
      · rintro ⟨e, hmem, d, hd, hle⟩
        refine ⟨e, ?_⟩
        rw [filterFutureEvents, List.mem_filter]
        exact ⟨hmem, by rw [hd]; simpa using hle⟩
    simp only [updateVenueStatus]
    by_cases h : ∃ e ∈ allEvents, ∃ d, e.date = some d ∧ startOfDay asOfDate ≤ d
    · rw [if_pos h]
      have : decide (0 < (filterFutureEvents allEvents asOfDate).length) = true := by
        simpa using hiff.mpr h
      simp [this]
    · rw [if_neg h]
      have : decide (0 < (filterFutureEvents allEvents asOfDate).length) = false := by
        simpa using fun hc => h (hiff.mp hc)
      simp [this]
  · rcases existingStatus with _ | st <;> rfl

/-- C5: `deduplicate` returns exactly one representative per fingerprint
key, listed in the order of each fingerprint group's first-seen position;
within each group the survivor is the first member attaining the maximum
completeness score (`argmaxFirst` of the group, i.e. maximum score with
ties broken by first-seen order), and every emitted event score-dominates
every input event sharing its fingerprint. -/
theorem deduplicate_one_max_representative_per_fingerprint :
    ∀ es : List DEvent,
      (deduplicate es =
        (firstKeys es).filterMap fun k =>
          argmaxFirst (es.filter fun e => fpKey e = k)) ∧
      ((deduplicate es).map fpKey = firstKeys es) ∧
      (firstKeys es).Nodup ∧
      (∀ e ∈ deduplicate es, e ∈ es ∧
        ∀ x ∈ es, fpKey x = fpKey e →
          completenessScore x ≤ completenessScore e) :=
  fun es =>
    ⟨deduplicate_eq_firstKeys_argmax es, deduplicate_map_fpKey es,
      firstKeys_nodup es, fun _ he => mem_deduplicate_max he⟩

/-- C5 witness: on a two-element group with equal fingerprints, the
higher-scoring survivor is a member of the input that score-dominates
every member sharing its fingerprint. -/
theorem deduplicate_one_max_representative_witness :
    (⟨"trivia night", "2025-01-05T19:00:00.000Z", "CROOKED LANE", none,
        some "7pm", none, none, none, none, [], 1⟩ : DEvent) ∈
      ([⟨"Trivia Night!", "2025-01-05T00:00:00.000Z", "Crooked Lane", none,
          none, none, none, none, none, [], 0⟩,
        ⟨"trivia night", "2025-01-05T19:00:00.000Z", "CROOKED LANE", none,
          some "7pm", none, none, none, none, [], 1⟩] :
        List DEvent) ∧
    ∀ x ∈ ([⟨"Trivia Night!", "2025-01-05T00:00:00.000Z", "Crooked Lane",
          none, none, none, none, none, none, [], 0⟩,
        ⟨"trivia night", "2025-01-05T19:00:00.000Z", "CROOKED LANE", none,
          some "7pm", none, none, none, none, [], 1⟩] :
        List DEvent),
      fpKey x = fpKey (⟨"trivia night", "2025-01-05T19:00:00.000Z",
        "CROOKED LANE", none, some "7pm", none, none, none, none,
        [], 1⟩ : DEvent) →
      completenessScore x ≤ completenessScore
        (⟨"trivia night", "2025-01-05T19:00:00.000Z", "CROOKED LANE", none,
          some "7pm", none, none, none, none, [], 1⟩ : DEvent) :=
  (deduplicate_one_max_representative_per_fingerprint
    [⟨"Trivia Night!", "2025-01-05T00:00:00.000Z", "Crooked Lane", none,
        none, none, none, none, none, [], 0⟩,
      ⟨"trivia night", "2025-01-05T19:00:00.000Z", "CROOKED LANE", none,
        some "7pm", none, none, none, none, [], 1⟩]).2.2.2
    ⟨"trivia night", "2025-01-05T19:00:00.000Z", "CROOKED LANE", none,
      some "7pm", none, none, none, none, [], 1⟩
    (by
      have hlt : completenessScore
          (⟨"Trivia Night!", "2025-01-05T00:00:00.000Z", "Crooked Lane",
            none, none, none, none, none, none, [], 0⟩ : DEvent) <
          completenessScore
          (⟨"trivia night", "2025-01-05T19:00:00.000Z", "CROOKED LANE",
            none, some "7pm", none, none, none, none, [], 1⟩ : DEvent) := by
        norm_num [completenessScore, jsTruthy]
        rw [if_neg (show ¬("7pm" = "") by decide)]
        norm_num
      have hd : deduplicate
          [⟨"Trivia Night!", "2025-01-05T00:00:00.000Z", "Crooked Lane",
            none, none, none, none, none, none, [], 0⟩,
          ⟨"trivia night", "2025-01-05T19:00:00.000Z", "CROOKED LANE", none,
            some "7pm", none, none, none, none, [], 1⟩] =
          [if completenessScore
              (⟨"Trivia Night!", "2025-01-05T00:00:00.000Z", "Crooked Lane",
                none, none, none, none, none, none, [], 0⟩ : DEvent) <
              completenessScore
              (⟨"trivia night", "2025-01-05T19:00:00.000Z", "CROOKED LANE",
                none, some "7pm", none, none, none, none, [], 1⟩ : DEvent)
          then (⟨"trivia night", "2025-01-05T19:00:00.000Z", "CROOKED LANE",
              none, some "7pm", none, none, none, none, [], 1⟩ : DEvent)
          else ⟨"Trivia Night!", "2025-01-05T00:00:00.000Z", "Crooked Lane",
              none, none, none, none, none, none, [], 0⟩] := rfl
      rw [hd, if_pos hlt]
      exact List.mem_singleton_self _)

/-- C9: `deduplicate` is idempotent. -/
theorem deduplicate_idempotent (es : List DEvent) :
    deduplicate (deduplicate es) = deduplicate es :=
  deduplicate_of_nodup_keys (deduplicate es)
    (by rw [deduplicate_map_fpKey]; exact firstKeys_nodup es)

/-- C3: the year roll-over block reads the process wall clock
(`new Date()`), not the supplied reference instant, and jumps to the wall
clock's year plus one.  At wall clock 2026-10-12, `parseDate("January 5")`
with reference 2025-06-01 yields 2027-01-05 — not the claimed 2026-01-05 —
so the result is not decided by the supplied reference instant alone; the
claimed behaviour is produced exactly when the wall clock coincides with
the reference (last two conjuncts, matching the spec's two examples). -/
theorem parseDate_rollover_uses_wall_clock :
    parseDate "January 5" (daysFromCivil ⟨2025, 6, 1⟩)
        (daysFromCivil ⟨2026, 10, 12⟩) =
      some (daysFromCivil ⟨2027, 1, 5⟩) ∧
    daysFromCivil ⟨2027, 1, 5⟩ ≠ daysFromCivil ⟨2026, 1, 5⟩ ∧
    parseDate "January 5" (daysFromCivil ⟨2025, 6, 1⟩)
        (daysFromCivil ⟨2025, 6, 1⟩) =
      some (daysFromCivil ⟨2026, 1, 5⟩) ∧
    parseDate "January 5" (daysFromCivil ⟨2025, 1, 1⟩)
        (daysFromCivil ⟨2025, 1, 1⟩) =
      some (daysFromCivil ⟨2025, 1, 5⟩) := by
  refine ⟨by decide, by decide, by decide, by decide⟩

/-- C4 counterexample: normalizing
`{title: "Trivia Night", date: "Every Thursday", startTime: "7pm"}` for
venue "Crooked Lane" produces the tag list `["trivia"]` — the date text is
never consulted for tags, so `"thursday"` is not among them — and keeps
the start time as the raw text `"7pm"` rather than a resolved 19:00. -/
theorem trivia_night_thursday_tag_counterexample :
    ((normalizeEvent
        ⟨some "Trivia Night", some "Every Thursday", some "7pm", none,
          none, none, none, none⟩
        ⟨"Crooked Lane"⟩ "crooked-lane"
        (daysFromCivil ⟨2026, 10, 12⟩)).map (·.tags) = some ["trivia"]) ∧
    "thursday" ∉ (["trivia"] : List String) ∧
    ((normalizeEvent
        ⟨some "Trivia Night", some "Every Thursday", some "7pm", none,
          none, none, none, none⟩
        ⟨"Crooked Lane"⟩ "crooked-lane"
        (daysFromCivil ⟨2026, 10, 12⟩)).map (·.startTime) =
      some (some "7pm")) := by
  refine ⟨by decide, by decide, by decide⟩

/-- C4 amended: for every normalization instant, the raw record
`{title: "Trivia Night", date: "Every Thursday", startTime: "7pm"}` for
venue "Crooked Lane" normalizes to an event with category `trivia`, tag
list exactly `["trivia"]` (tags are extracted from title and description
only, which contain no weekday, so `"thursday"` is absent),
`isRecurring = true`, `recurringPattern = "weekly:thursday"`, and the
start time kept as the raw text `"7pm"`; the time parser would resolve
that text to 19:00 (`parseTime "7pm" = (19, 0)`) but the normalizer does
not apply it. -/
theorem trivia_night_normalization (now : Int) :
    ((normalizeEvent
        ⟨some "Trivia Night", some "Every Thursday", some "7pm", none,
          none, none, none, none⟩
        ⟨"Crooked Lane"⟩ "crooked-lane" now).map (·.type) =
      some .trivia) ∧
    ((normalizeEvent
        ⟨some "Trivia Night", some "Every Thursday", some "7pm", none,
          none, none, none, none⟩
        ⟨"Crooked Lane"⟩ "crooked-lane" now).map (·.tags) =
      some ["trivia"]) ∧
    ((normalizeEvent
        ⟨some "Trivia Night", some "Every Thursday", some "7pm", none,
          none, none, none, none⟩
        ⟨"Crooked Lane"⟩ "crooked-lane" now).map (·.isRecurring) =
      some true) ∧
    ((normalizeEvent
        ⟨some "Trivia Night", some "Every Thursday", some "7pm", none,
          none, none, none, none⟩
        ⟨"Crooked Lane"⟩ "crooked-lane" now).map (·.recurringPattern) =
      some (some "weekly:thursday")) ∧
    ((normalizeEvent
        ⟨some "Trivia Night", some "Every Thursday", some "7pm", none,
          none, none, none, none⟩
        ⟨"Crooked Lane"⟩ "crooked-lane" now).map (·.startTime) =
      some (some "7pm")) ∧
    parseTime "7pm" = some (19, 0) :=
  ⟨rfl, rfl, rfl, rfl, rfl, rfl⟩

/-- C6: `normalizeEvent` is total (it returns an `Option`, never
escaping an exception), and it drops the record — returns `none` —
exactly when the title is missing or empty, or the date field is absent,
or the date parser cannot resolve the date text. -/
theorem normalizeEvent_drop_condition :
    ∀ (rawData : RawEventData) (venue : VenueInfo) (source : String)
      (now : Int),
      normalizeEvent rawData venue source now = none ↔
        rawData.title = none ∨ rawData.title = some "" ∨
        rawData.date = none ∨
        (∃ ds, rawData.date = some ds ∧ parseDate ds now now = none) := by
  intro rawData venue source now
  rcases ht : rawData.title with _ | t
  · simp [normalizeEvent, jsTruthy, ht]
  · by_cases hte : t = ""
    · subst hte
      simp [normalizeEvent, jsTruthy, ht]
    · rcases hd : rawData.date with _ | ds
      · simp [normalizeEvent, jsTruthy, ht, hd, hte]
      · by_cases hde : ds = ""
        · subst hde
          simp only [normalizeEvent, jsTruthy, ht, hd]
          simp [hte]
          rfl
        · rcases hp : parseDate ds now now with _ | d
          · simp [normalizeEvent, jsTruthy, ht, hd, hte, hde, hp]
          · simp [normalizeEvent, jsTruthy, ht, hd, hte, hde, hp]

/-- C6 has no hypothesis-free instantiation issue, but we also record a
closed drop/keep pair: a record without a resolvable date is dropped, a
full record is kept. -/
theorem normalizeEvent_drop_condition_witness :
    (normalizeEvent ⟨some "X", some "gibberish", none, none, none, none,
        none, none⟩ ⟨"V"⟩ "s" 0 = none) ∧
    (normalizeEvent ⟨some "X", some "today", none, none, none, none,
        none, none⟩ ⟨"V"⟩ "s" 0 ≠ none) := by
  refine ⟨by decide, by decide⟩

/-- C7: the event id depends only on the lower-cased alphanumeric-only
title, the date string, and the lower-cased alphanumeric-only venue name
(so case or punctuation changes never change it); and at concrete inputs,
changing the date string changes the id. -/
theorem generateEventId_pure :
    (∀ t1 t2 v1 v2 d, alnumLower t1 = alnumLower t2 →
      alnumLower v1 = alnumLower v2 →
      generateEventId t1 d v1 = generateEventId t2 d v2) ∧
    generateEventId "Trivia Night" "2025-01-05T00:00:00.000Z"
        "Crooked Lane" =
      generateEventId "TRIVIA-night!!" "2025-01-05T00:00:00.000Z"
        "crooked lane" ∧
    generateEventId "Trivia Night" "2025-01-05T00:00:00.000Z"
        "Crooked Lane" ≠
      generateEventId "Trivia Night" "2025-01-06T00:00:00.000Z"
        "Crooked Lane" := by
  refine ⟨?_, by decide, by decide⟩
  intro t1 t2 v1 v2 d h1 h2
  rw [generateEventId, generateEventId, h1, h2]

/-- C7 witness: the purity conjunct applied at a concrete case/punctuation
variation. -/
theorem generateEventId_pure_witness :
    generateEventId "Trivia Night" "2025-01-05T00:00:00.000Z"
        "Crooked Lane" =
      generateEventId "trivia night" "2025-01-05T00:00:00.000Z"
        "CROOKED LANE" :=
  generateEventId_pure.1 "Trivia Night" "trivia night" "Crooked Lane"
    "CROOKED LANE" "2025-01-05T00:00:00.000Z" (by decide) (by decide)

/-- C10: `parseTime`'s fallback performs no range validation —
`parseTime "99"` returns hour 99 with minute 0; any input whose cleaned
form contains a digit matches the fallback pattern; and the returned hour
is therefore not guaranteed to lie in 0–23. -/
theorem parseTime_fallback_no_range_validation :
    parseTime "99" = some (99, 0) ∧
    (∀ s : String, hasDigit (cleanTimeString s).data = true →
      (firstMatchPos fallbackTimeAt (cleanTimeString s).data).isSome =
        true) ∧
    (∃ (s : String) (h m : Nat), parseTime s = some (h, m) ∧ 23 < h) := by
  refine ⟨by decide, ?_, ⟨"99", 99, 0, by decide, by norm_num⟩⟩
  intro s
  generalize (cleanTimeString s).data = t
  induction t with
  | nil => intro h; simp [hasDigit] at h
  | cons c rest ih =>
    intro h
    rw [firstMatchPos]
    by_cases hc : isDigitCh c = true
    · have : (fallbackTimeAt (c :: rest)).isSome = true := by
        rw [fallbackTimeAt]
        have htake : ∃ v r, takeDigits12 (c :: rest) = some (v, r) := by
          rcases rest with _ | ⟨b, rest2⟩
          · exact ⟨digitVal c, [], by simp [takeDigits12, hc]⟩
          · by_cases hb : isDigitCh b = true
            · exact ⟨digitVal c * 10 + digitVal b, rest2,
                by simp [takeDigits12, hc, hb]⟩
            · exact ⟨digitVal c, b :: rest2,
                by simp [takeDigits12, hc, hb]⟩
        rcases htake with ⟨v, r, htake⟩
        rw [htake]
        simp only []
        rcases hr : r with _ | ⟨x, rest3⟩ <;> rcases hm : matchLit "AM".data _ with _ | _ <;>
          rcases hpm : matchLit "PM".data _ with _ | _ <;> simp_all
      rcases hfb : fallbackTimeAt (c :: rest) with _ | val
      · rw [hfb] at this; simp at this
      · simp
    · have hrest : hasDigit rest = true := by
        rw [hasDigit] at h ⊢
        simp only [List.any_cons, hc, Bool.false_or] at h
        exact h
      rcases hfb : fallbackTimeAt (c :: rest) with _ | val
      · exact ih hrest
      · simp

/-- C10 witness: the fallback-pattern conjunct applied at the concrete
input "99". -/
theorem parseTime_fallback_witness :
    hasDigit (cleanTimeString "99").data = true ∧
    (firstMatchPos fallbackTimeAt (cleanTimeString "99").data).isSome =
      true :=
  ⟨by decide, parseTime_fallback_no_range_validation.2.1 "99" (by decide)⟩

end LocalEventSearch
